import Mathlib

/-!
Shallow embedding of the srp-auth repository (a JavaScript SRP-6a client):
the integer/byte codec and helpers from `src/util/math.ts`, the
`ClientAuthenticate` state machine from `src/client/authenticate.ts`
(re-exported through `src/index.ts`), and the `ServerSetup` admission check.

Conventions of the embedding:
* a JS `Uint8Array` is a `List Nat` whose entries lie in `0..255`;
* a JS `bigint` that the code only ever produces from bytes (`toBigInt`) is a
  `Nat`; values that can go negative (`powMod` results, the session secret
  `S`) are `Int`, with the JS `%` remainder (sign of the dividend) modelled
  by `Int.tmod`;
* a JS function that can throw is `Option`- or `Except`-valued; the
  exceptions JS raises itself (`SyntaxError` from `BigInt('0x')`,
  `RangeError` from `% 0n`) are modelled alongside the library's own
  `SRPError` / `SRPSecurityViolation`;
* the external hash primitive (hash-wasm digests) is an abstract parameter
  `H : List Nat → List Nat`; `src/util/hash.ts` concatenates its inputs into
  one buffer before digesting, so every call site below passes the
  concatenation of the chunks the source passes.
-/

deriving instance DecidableEq for Except

namespace SRP

/-- Embedding of `toBigInt` (`src/util/math.ts`): each byte is rendered as two
hex digits (`padStart(2, '0')`) and the concatenation is parsed with
`BigInt('0x' + hex)`, i.e. big-endian base 256; on an empty array the hex
string is empty and `BigInt('0x')` throws a `SyntaxError`, modelled as
`none`. -/
def toBigInt (arr : List Nat) : Option Nat :=
  if arr = [] then none
  else some (arr.foldl (fun acc b => acc * 256 + b) 0)

/-- Helper: the big-endian base-256 value of a byte list (the value `toBigInt`
returns on a non-empty input). -/
def beVal (arr : List Nat) : Nat :=
  arr.foldl (fun acc b => acc * 256 + b) 0

/-- Helper for `hexDigitsBE`: repeatedly divide by 16, prepending each
remainder; the first argument is fuel bounding the number of divisions
(`n` itself always suffices), so the recursion is structural and reduces in
the kernel. -/
def hexDigitsGo : Nat → Nat → List Nat → List Nat
  | _, 0, acc => acc
  | 0, _ + 1, acc => acc
  | fuel + 1, n + 1, acc => hexDigitsGo fuel ((n + 1) / 16) (((n + 1) % 16) :: acc)

/-- Embedding of `n.toString(16)` for a non-negative JS bigint, as the list of
hex digits, most significant first: no leading zero digit, and `0` renders as
the single digit `0`. -/
def hexDigitsBE (n : Nat) : List Nat :=
  if n = 0 then [0] else hexDigitsGo n n []

/-- Embedding of the slicing loop of `toUint8Array` (`src/util/math.ts`):
`hex.slice(i, i + 2)` takes digits two at a time from the FRONT of the digit
string, so an odd-length string leaves a lone final digit — the source does
not left-pad the hex string to even length. -/
def packPairs : List Nat → List Nat
  | [] => []
  | [d] => [d]
  | d1 :: d2 :: rest => (16 * d1 + d2) :: packPairs rest

/-- Embedding of `toUint8Array` (`src/util/math.ts`) on a non-negative
bigint: `hex = n.toString(16)` followed by front-aligned pair slicing. -/
def toUint8Array (n : Nat) : List Nat :=
  packPairs (hexDigitsBE n)

/-- Embedding of `toUint8Array` on an arbitrary (possibly negative) bigint,
as used for the session secret `S`. For `n < 0`, `n.toString(16)` is
`'-' ++ digits`, so the first 2-character slice is `-d1` and
`parseInt('-d1', 16) = -d1`, which the `Uint8Array` store coerces mod 256;
the remaining digits are then pair-sliced from index 2. -/
def toUint8ArrayI (n : Int) : List Nat :=
  if n < 0 then
    match hexDigitsBE n.natAbs with
    | [] => []
    | d1 :: rest => ((256 - d1) % 256) :: packPairs rest
  else toUint8Array n.toNat

/-- Embedding of one hex digit of `b.toString(16)`: lower-case
(`0`–`9`, `a`–`f`). -/
def hexChar (d : Nat) : Char :=
  if d < 10 then Char.ofNat (48 + d) else Char.ofNat (87 + d)

/-- Embedding of `arr[i].toString(16).padStart(2, '0')` for a byte. -/
def byteToHex (b : Nat) : List Char :=
  [hexChar (b / 16), hexChar (b % 16)]

/-- Embedding of `toHex` (`src/util/math.ts`) on a `Uint8Array`: two
lower-case hex characters per byte, no separators. -/
def toHex (arr : List Nat) : String :=
  String.mk (arr.foldr (fun b acc => byteToHex b ++ acc) [])

/-- Embedding of `toHex` on a bigint (the source first converts through
`toUint8Array`). -/
def toHexOfNat (n : Nat) : String :=
  toHex (toUint8Array n)

/-- Helper for `powMod`: the square-and-multiply loop of
`src/util/math.ts`. The first argument is fuel bounding the number of
halvings of the exponent (the exponent itself always suffices) so the
recursion is structural; JS `%` is `Int.tmod`, and `x % 0n` throws a
`RangeError`, modelled as `none` — inside the loop body both branches
evaluate a `% p` (`result * base % p` when the exponent bit is set,
`base * base % p` always), so any iteration with `p = 0` throws. -/
def powModGo : Nat → Nat → Int → Int → Int → Option Int
  | _, 0, _, _, result => some result
  | 0, _ + 1, _, _, _ => none
  | fuel + 1, e + 1, base, p, result =>
    if p = 0 then none
    else
      powModGo fuel ((e + 1) / 2) ((base * base).tmod p) p
        (if (e + 1) % 2 = 1 then (result * base).tmod p else result)

/-- Embedding of `powMod` (`src/util/math.ts`). Every exponent the library
passes is a non-negative bigint (`toBigInt` output or a sum/product of
such), so the exponent is a `Nat`; the base and modulus may be any bigint. -/
def powMod (base : Int) (exp : Nat) (p : Int) : Option Int :=
  powModGo exp exp base p 1

/-- Embedding of `doesMatch` (`src/util/math.ts`): false on a length
mismatch, otherwise pointwise byte equality. -/
def doesMatch (a b : List Nat) : Bool :=
  if a.length ≠ b.length then false
  else (List.zip a b).all fun q => q.1 == q.2

/-- Embedding of the combine step of `hash` (`src/util/hash.ts`): the input
chunks (strings already encoded to bytes) are concatenated into one buffer,
which is digested by the selected algorithm `H`. -/
def hashPipe (H : List Nat → List Nat) (input : List (List Nat)) : List Nat :=
  H (input.foldl (fun acc c => acc ++ c) [])

/-- Embedding of `new TextEncoder().encode(':')`: the UTF-8 bytes of the
literal separator used in the identity hash. -/
def colonBytes : List Nat := [58]

/-- Errors: the library's `SRPError` and its subclass `SRPSecurityViolation`
(`src/util/error.ts`), plus the errors the JS runtime itself raises
(`SyntaxError` from `BigInt('0x')`, `RangeError` from `% 0n`). -/
inductive SRPErr where
  | srpError (msg : String)
  | securityViolation (msg : String)
  | nativeError (msg : String)
deriving DecidableEq

/-- JS truthiness of an optional bigint field: `!this.x` is true when the
field is `undefined` or `0n`. -/
def falsyNat : Option Nat → Bool
  | none => true
  | some v => v == 0

/-- State of a `ClientAuthenticate` instance
(`src/client/authenticate.ts`): the constructor-set identity, password and
group, and the optional per-session scalars. A `Uint8Array` field
(`K`, `M1`) is truthy in JS whenever it is set, so no zero check applies to
those. -/
structure CAState where
  I : List Nat
  p : List Nat
  N : Nat
  g : Nat
  a : Option Nat
  A : Option Nat
  B : Option Nat
  u : Option Nat
  s : Option Nat
  S : Option Int
  K : Option (List Nat)
  M1 : Option (List Nat)
deriving DecidableEq

/-- Embedding of `ClientAuthenticate.computeU`: `u = H(A, B)` as a bigint;
throws `SRPError` when `A` or `B` is unset (or `0n`, by JS falsiness). -/
def computeU (H : List Nat → List Nat) (st : CAState) : Except SRPErr Nat :=
  match st.A, st.B with
  | some A, some B =>
    if A = 0 ∨ B = 0 then
      Except.error (SRPErr.srpError "A and B must be set before computing u")
    else
      match toBigInt (hashPipe H [toUint8Array A, toUint8Array B]) with
      | some u => Except.ok u
      | none => Except.error (SRPErr.nativeError "Cannot convert 0x to a BigInt")
  | _, _ => Except.error (SRPErr.srpError "A and B must be set before computing u")

/-- Embedding of `ClientAuthenticate.computeK`: `k = H(N, g)` as a bigint. -/
def computeK (H : List Nat → List Nat) (st : CAState) : Except SRPErr Nat :=
  match toBigInt (hashPipe H [toUint8Array st.N, toUint8Array st.g]) with
  | some k => Except.ok k
  | none => Except.error (SRPErr.nativeError "Cannot convert 0x to a BigInt")

/-- Embedding of `ClientAuthenticate.computeX`:
`x = H(s, H(I, ':', p))` as a bigint; throws `SRPError` when `s` is unset
(or `0n`, by JS falsiness). -/
def computeX (H : List Nat → List Nat) (st : CAState) : Except SRPErr Nat :=
  match st.s with
  | some s =>
    if s = 0 then
      Except.error (SRPErr.srpError "s must be set before computing x")
    else
      match toBigInt (hashPipe H [toUint8Array s, hashPipe H [st.I, colonBytes, st.p]]) with
      | some x => Except.ok x
      | none => Except.error (SRPErr.nativeError "Cannot convert 0x to a BigInt")
  | none => Except.error (SRPErr.srpError "s must be set before computing x")

/-- Embedding of `ClientAuthenticate.computeS`:
`S = powMod(B - k * powMod(g, x, N), a + u * x, N)`, with the subtraction
over unbounded integers; throws `SRPError` when `a`, `B` or `u` is unset (or
`0n`, by JS falsiness). -/
def computeS (H : List Nat → List Nat) (st : CAState) : Except SRPErr Int :=
  match st.a, st.B, st.u with
  | some a, some B, some u =>
    if a = 0 ∨ B = 0 ∨ u = 0 then
      Except.error (SRPErr.srpError "a, B, and u must be set before computing S")
    else
      match computeK H st with
      | Except.error e => Except.error e
      | Except.ok k =>
        match computeX H st with
        | Except.error e => Except.error e
        | Except.ok x =>
          match powMod (st.g : Int) x (st.N : Int) with
          | none => Except.error (SRPErr.nativeError "Division by zero")
          | some gx =>
            match powMod ((B : Int) - (k : Int) * gx) (a + u * x) (st.N : Int) with
            | none => Except.error (SRPErr.nativeError "Division by zero")
            | some S => Except.ok S
  | _, _, _ => Except.error (SRPErr.srpError "a, B, and u must be set before computing S")

/-- Embedding of `ClientAuthenticate.exchange` on already-decoded byte
inputs. The result pairs the post-call state (JS exceptions abort the method
but leave the fields assigned so far) with the error thrown, if any.
Mirrors the source order: the `A` guard, then `this.B` and `this.s` are
assigned, then the `B === 0n` guard, then `u` is computed and stored and the
`u === 0n` guard runs, then `S` and `K = H(S)` are stored. -/
def exchange (H : List Nat → List Nat) (st : CAState) (Bb sb : List Nat) :
    CAState × Option SRPErr :=
  if falsyNat st.A then
    (st, some (SRPErr.srpError "A must be set before exchanging B"))
  else
    match toBigInt Bb with
    | none => (st, some (SRPErr.nativeError "Cannot convert 0x to a BigInt"))
    | some Bv =>
      let st1 := { st with B := some Bv }
      match toBigInt sb with
      | none => (st1, some (SRPErr.nativeError "Cannot convert 0x to a BigInt"))
      | some sv =>
        let st2 := { st1 with s := some sv }
        if Bv = 0 then
          (st2, some (SRPErr.srpError "Invalid server-supplied public key: B = 0\nThis is probably a misconfiguration, but possibly a MitM attack!"))
        else
          match computeU H st2 with
          | Except.error e => (st2, some e)
          | Except.ok uv =>
            let st3 := { st2 with u := some uv }
            if uv = 0 then
              (st3, some (SRPErr.srpError "Invalid keys: u = 0\nThis is probably a misconfiguration, but possibly a MitM attack!"))
            else
              match computeS H st3 with
              | Except.error e => (st3, some e)
              | Except.ok Sv =>
                let st4 := { st3 with S := some Sv }
                ({ st4 with K := some (hashPipe H [toUint8ArrayI Sv]) }, none)

/-- Embedding of `ClientAuthenticate.verifyServer` on an already-decoded
byte input `M2` (`src/index.ts` lines 246–261): requires `A`, `M1`, `K` set,
computes `expected = H(A, M1, K)`, and throws `SRPSecurityViolation` when
`doesMatch(expected, M2)` holds — note the polarity of the source condition.
The method assigns no fields, so only the thrown error (if any) is
returned. -/
def verifyServer (H : List Nat → List Nat) (st : CAState) (M2 : List Nat) :
    Option SRPErr :=
  match st.A, st.M1, st.K with
  | some A, some M1v, some Kv =>
    if A = 0 then
      some (SRPErr.srpError "A, M1, and K must be set before verifying the server")
    else
      let expected := hashPipe H [toUint8Array A, M1v, Kv]
      if doesMatch expected M2 then
        some (SRPErr.securityViolation "Server-supplied M2 does not match the expected value\nThis is probably a misconfiguration, but possibly a MitM attack!")
      else
        none
  | _, _, _ => some (SRPErr.srpError "A, M1, and K must be set before verifying the server")

/-- State of a `ServerSetup` instance (`server/setup.ts`): identity string,
decoded salt bytes and decoded verifier value. -/
structure SSState where
  I : String
  s : List Nat
  v : Nat
deriving DecidableEq

/-- Embedding of the `ServerSetupResult` record. -/
structure ServerSetupResult where
  username : String
  salt : String
  verifier : String
deriving DecidableEq

/-- Embedding of `ServerSetup.getCredentials`: re-encodes the stored triple
as `(username, hex salt, hex verifier)`; it performs no validation and every
operation it uses is total, so it never throws. -/
def getCredentials (st : SSState) : ServerSetupResult :=
  { username := st.I, salt := toHex st.s, verifier := toHexOfNat st.v }

/-- Embedding of `ServerSetup.verify`: `SRPError` when `I` is empty,
`SRPSecurityViolation` when `s` is empty or decodes to `0n` (short-circuit:
the `toBigInt` call only runs on a non-empty `s`) or when `v = 0n`;
otherwise returns `getCredentials()`. -/
def verify (st : SSState) : Except SRPErr ServerSetupResult :=
  if st.I.length = 0 then
    Except.error (SRPErr.srpError "I must not be empty")
  else if st.s.length = 0 ∨ toBigInt st.s = some 0 then
    Except.error (SRPErr.securityViolation "s must not be empty or equal zero")
  else if st.v = 0 then
    Except.error (SRPErr.securityViolation "v must not be zero")
  else
    Except.ok (getCredentials st)

/-- Decidable check that a character belongs to the lower-case hex alphabet
`0`–`9`, `a`–`f`. -/
def isLowerHexDigit (c : Char) : Bool :=
  (48 ≤ c.toNat && c.toNat ≤ 57) || (97 ≤ c.toNat && c.toNat ≤ 102)

/-! ### Concrete instantiations used by witnesses and counterexamples

The hash primitive is external (hash-wasm), so concrete protocol runs use
small stand-in digest functions; the protocol code under test never inspects
the digest internals, only its bytes. -/

/-- Digest stub that returns the one-byte digest `[1]` for every buffer. -/
def constHash : List Nat → List Nat := fun _ => [1]

/-- Digest stub returning `[1]` exactly on the buffer `[5, 3]` (the `H(N, g)`
buffer of the tiny group below) and `[2]` elsewhere. -/
def tableHash : List Nat → List Nat := fun l => if l = [5, 3] then [1] else [2]

/-- Digest stub returning the buffer length as a one-byte digest. -/
def lenHash : List Nat → List Nat := fun l => [l.length % 256]

/-- Tiny post-`init` client state over the group `N = 7`, `g = 3` with
`a = 2`, `A = 3 ^ 2 % 7 = 2`. -/
def demoInit : CAState :=
  ⟨[], [], 7, 3, some 2, some 2, none, none, none, none, none, none⟩

/-- Tiny client state over the group `N = 5`, `g = 3` with `a = 1`, `B = 2`,
`u = 1`, `s = 1` set, ready for `computeS`. -/
def demoPreS : CAState :=
  ⟨[], [], 5, 3, some 1, some 2, some 2, some 1, some 1, none, none, none⟩

/-- Tiny client state with `A = 2`, `M1 = [3]`, `K = [4]` set, ready for
`verifyServer`. -/
def demoPreVerify : CAState :=
  ⟨[], [], 7, 3, none, some 2, none, none, none, none, some [4], some [3]⟩

/-- Tiny freshly-constructed client state: no `init` call yet, so `a` and `A`
are unset. -/
def demoFresh : CAState :=
  ⟨[], [], 7, 3, none, none, none, none, none, none, none, none⟩

/-! ### Codec lemmas shared by C3 and C4 -/

/-- Helper: the hex-digit expansion of a byte list, two digits per byte,
most significant first — the digit string `toHex` would produce. -/
def expandBytes (l : List Nat) : List Nat :=
  l.foldr (fun b acc => b / 16 :: b % 16 :: acc) []

/-- Folding big-endian digits in base `b` computes `Nat.ofDigits` of the
reversed (little-endian) digit list. -/
theorem foldl_mul_base_add (b : Nat) :
    ∀ (l : List Nat) (acc : Nat),
      l.foldl (fun a d => a * b + d) acc
        = acc * b ^ l.length + Nat.ofDigits b l.reverse
  | [], acc => by simp [Nat.ofDigits]
  | d :: tl, acc => by
    have ih := foldl_mul_base_add b tl (acc * b + d)
    simp only [List.foldl_cons, List.reverse_cons, List.length_cons]
    rw [ih, Nat.ofDigits_append, Nat.ofDigits_singleton, List.length_reverse]
    ring

/-- The value `toBigInt` computes is the big-endian base-256 interpretation. -/
theorem beVal_eq_ofDigits (l : List Nat) :
    beVal l = Nat.ofDigits 256 l.reverse := by
  have h := foldl_mul_base_add 256 l 0
  simpa [beVal] using h

/-- On a non-empty byte list `toBigInt` succeeds with the base-256 value. -/
theorem toBigInt_of_ne_nil {x : List Nat} (h : x ≠ []) :
    toBigInt x = some (beVal x) := by
  simp [toBigInt, beVal, h]

/-- The fuel in `hexDigitsGo` is never exhausted when it starts at the
number itself: the loop computes the little-endian base-16 digits,
reversed. -/
theorem hexDigitsGo_spec :
    ∀ (fuel n : Nat) (acc : List Nat), n ≤ fuel →
      hexDigitsGo fuel n acc = (Nat.digits 16 n).reverse ++ acc
  | _, 0, acc, _ => by simp [hexDigitsGo]
  | 0, n + 1, _, h => absurd h (by omega)
  | fuel + 1, n + 1, acc, h => by
    have h1 : (n + 1) / 16 < n + 1 := Nat.div_lt_self (Nat.succ_pos n) (by norm_num)
    have hle : (n + 1) / 16 ≤ fuel := Nat.lt_succ_iff.mp (Nat.lt_of_lt_of_le h1 h)
    have ih := hexDigitsGo_spec fuel ((n + 1) / 16) (((n + 1) % 16) :: acc) hle
    rw [hexDigitsGo, ih, Nat.digits_def' (by norm_num : (1 : Nat) < 16) (Nat.succ_pos n)]
    simp

/-- For non-zero `n`, `hexDigitsBE` is the reversed `Nat.digits 16`. -/
theorem hexDigitsBE_of_ne_zero {n : Nat} (h : n ≠ 0) :
    hexDigitsBE n = (Nat.digits 16 n).reverse := by
  rw [hexDigitsBE, if_neg h, hexDigitsGo_spec n n [] le_rfl, List.append_nil]

/-- Re-packing the two-digit-per-byte expansion recovers the bytes. -/
theorem packPairs_expandBytes : ∀ l : List Nat, packPairs (expandBytes l) = l
  | [] => rfl
  | b :: tl => by
    have ih := packPairs_expandBytes tl
    simp only [expandBytes, List.foldr_cons] at ih ⊢
    rw [packPairs, ih, Nat.div_add_mod b 16]

/-- Folding the hex-digit expansion in base 16 equals folding the bytes in
base 256. -/
theorem foldl16_expandBytes :
    ∀ (l : List Nat) (acc : Nat),
      (expandBytes l).foldl (fun a d => a * 16 + d) acc
        = l.foldl (fun a c => a * 256 + c) acc
  | [], _ => rfl
  | b :: tl, acc => by
    have ih := foldl16_expandBytes tl (acc * 256 + b)
    simp only [expandBytes, List.foldr_cons, List.foldl_cons] at ih ⊢
    have hacc : (acc * 16 + b / 16) * 16 + b % 16 = acc * 256 + b := by omega
    rw [hacc]
    exact ih

/-- On an even-length digit list the front-aligned pair packing commutes
with the big-endian fold. -/
theorem packPairs_foldl_even :
    ∀ (ds : List Nat), ds.length % 2 = 0 →
      ∀ acc : Nat,
        (packPairs ds).foldl (fun a c => a * 256 + c) acc
          = ds.foldl (fun a d => a * 16 + d) acc
  | [], _, _ => rfl
  | [d], h, acc => by simp at h
  | d1 :: d2 :: rest, h, acc => by
    have hrest : rest.length % 2 = 0 := by
      simp only [List.length_cons] at h
      omega
    have ih := packPairs_foldl_even rest hrest (acc * 256 + (16 * d1 + d2))
    rw [packPairs]
    simp only [List.foldl_cons]
    rw [ih]
    have hacc : (acc * 16 + d1) * 16 + d2 = acc * 256 + (16 * d1 + d2) := by omega
    rw [hacc]

/-- Pair packing never maps a non-empty digit list to the empty list. -/
theorem packPairs_ne_nil : ∀ l : List Nat, l ≠ [] → packPairs l ≠ []
  | [], h => absurd rfl h
  | [_], _ => by simp [packPairs]
  | _ :: _ :: _, _ => by simp [packPairs]

/-- Every digit of the expansion of genuine bytes is a hex digit. -/
theorem mem_expandBytes_lt :
    ∀ (l : List Nat), (∀ b ∈ l, b < 256) → ∀ d ∈ expandBytes l, d < 16
  | [], _, d, hd => by simp [expandBytes] at hd
  | b :: tl, h, d, hd => by
    simp only [expandBytes, List.foldr_cons, List.mem_cons] at hd
    have hb : b < 256 := h b (List.mem_cons_self b tl)
    rcases hd with h1 | h2 | h3
    · omega
    · omega
    · exact mem_expandBytes_lt tl (fun x hx => h x (List.mem_cons_of_mem _ hx)) d h3

/-! ### C1 — verifyServer polarity -/

/-- C1: the source condition is inverted. With `A = 2`, `M1 = [3]`,
`K = [4]` and the length digest, the expected value `H(A, M1, K)` is `[3]`;
`verifyServer` throws `SRPSecurityViolation` precisely when the supplied
`M2` EQUALS that expected value, and returns silently when it differs —
the opposite of the claimed (and internally documented) behaviour. -/
theorem verifyServer_inverted_polarity_eval :
    hashPipe lenHash [toUint8Array 2, [3], [4]] = [3]
    ∧ verifyServer lenHash demoPreVerify [3] =
        some (SRPErr.securityViolation "Server-supplied M2 does not match the expected value\nThis is probably a misconfiguration, but possibly a MitM attack!")
    ∧ verifyServer lenHash demoPreVerify [9] = none := by
  refine ⟨rfl, by decide, by decide⟩

/-! ### C2 — exchange and B ≡ 0 (mod N) -/

/-- C2 counterexample: over the group with `N = 7`, the peer key bytes `[7]`
decode to `B = 7 ≡ 0 (mod N)`, yet `exchange` raises no error at all and
proceeds to compute and store `u`, `S` and `K`. -/
theorem exchange_accepts_B_equal_N :
    toBigInt [7] = some 7
    ∧ demoInit.N = 7
    ∧ 7 % demoInit.N = 0
    ∧ (exchange constHash demoInit [7] [5]).2 = none
    ∧ (exchange constHash demoInit [7] [5]).1.u = some 1
    ∧ (exchange constHash demoInit [7] [5]).1.S = some 1
    ∧ (exchange constHash demoInit [7] [5]).1.K = some [1] := by
  refine ⟨by decide, rfl, by decide, by decide, by decide, by decide, by decide⟩

/-- C2 amended: after `init`, `exchange` rejects a peer key only when its
decoded integer value is exactly `0` (throwing the library's plain
`SRPError`, after `this.B` and `this.s` have already been assigned); values
merely congruent to `0` modulo `N`, such as `B = N`, are not rejected. -/
theorem exchange_rejects_zero_B (H : List Nat → List Nat) (st : CAState)
    (Bb sb : List Nat) (sv : Nat)
    (hA : falsyNat st.A = false)
    (hB : toBigInt Bb = some 0)
    (hs : toBigInt sb = some sv) :
    exchange H st Bb sb =
      ({ st with B := some 0, s := some sv },
       some (SRPErr.srpError "Invalid server-supplied public key: B = 0\nThis is probably a misconfiguration, but possibly a MitM attack!")) := by
  simp [exchange, hA, hB, hs]

/-- C2 witness: the amended theorem applied to the concrete post-`init`
state with `B` bytes `[0]`. -/
theorem exchange_rejects_zero_B_witness :
    exchange constHash demoInit [0] [5] =
      ({ demoInit with B := some 0, s := some 5 },
       some (SRPErr.srpError "Invalid server-supplied public key: B = 0\nThis is probably a misconfiguration, but possibly a MitM attack!")) :=
  exchange_rejects_zero_B constHash demoInit [0] [5] 5 (by decide) (by decide) (by decide)

/-! ### C5 — powMod on exponent 0 and modulus 0 -/

/-- C5: `powMod` returns `1` whenever the exponent is `0` (the loop body
never runs, so not even a modulus of `0` is touched), and any call with a
non-zero exponent and modulus `0` throws (`RangeError` from `% 0n`, modelled
as `none`) rather than returning a silently wrong value. -/
theorem powMod_zero_exponent_zero_modulus :
    (∀ (b p : Int), powMod b 0 p = some 1)
    ∧ (∀ (b : Int) (e : Nat), e ≠ 0 → powMod b e 0 = none) := by
  constructor
  · intro b p
    rfl
  · intro b e he
    cases e with
    | zero => exact absurd rfl he
    | succ e => simp [powMod, powModGo]

/-- C5 witness: the theorem applied at `b = 5`, exponent `0` / exponent `3`,
modulus `0`. -/
theorem powMod_zero_exponent_zero_modulus_witness :
    powMod 5 0 0 = some 1 ∧ powMod 5 3 0 = none :=
  ⟨powMod_zero_exponent_zero_modulus.1 5 0,
   powMod_zero_exponent_zero_modulus.2 5 3 (by decide)⟩

/-! ### C8 — exchange before init -/

/-- C8: on an instance whose `A` was never set, `exchange` fails immediately
with the library's plain protocol error and the state is returned unchanged:
no session value (`B`, `s`, `u`, `S`, `K`) is stored. -/
theorem exchange_before_init_fails (H : List Nat → List Nat) (st : CAState)
    (Bb sb : List Nat) (hA : st.A = none) :
    exchange H st Bb sb =
      (st, some (SRPErr.srpError "A must be set before exchanging B")) := by
  simp [exchange, falsyNat, hA]

/-- C8 witness: the theorem applied to a freshly constructed instance. -/
theorem exchange_before_init_fails_witness :
    exchange constHash demoFresh [5] [5] =
      (demoFresh, some (SRPErr.srpError "A must be set before exchanging B")) :=
  exchange_before_init_fails constHash demoFresh [5] [5] rfl

/-! ### C9 — getCredentials performs no validation -/

/-- C9: `getCredentials` is total — it re-encodes whatever triple the
instance holds, without any of the checks `verify` performs. In particular
the degenerate triple (empty `I`, empty `s`, zero `v`), which `verify`
rejects, is re-encoded without any error. -/
theorem getCredentials_total_no_checks :
    (∀ st : SSState,
      getCredentials st = ⟨st.I, toHex st.s, toHexOfNat st.v⟩)
    ∧ getCredentials ⟨"", [], 0⟩ = ⟨"", "", "00"⟩
    ∧ verify ⟨"", [], 0⟩ = Except.error (SRPErr.srpError "I must not be empty") := by
  refine ⟨fun st => rfl, by decide, by decide⟩

/-! ### C10 — powMod results can be negative -/

/-- C10: JS `%` keeps the sign of the dividend, so `powMod` does not reduce
into `[0, modulus)`: `powMod (-2) 1 5 = -2`. Consequently `computeS`, whose
base `B - k·g^x` can be negative, can produce a negative session secret:
on the tiny state over `N = 5`, `g = 3` with `a = 1`, `B = 2`, `u = 1`,
`s = 1` and the table digest (giving `k = 1`, `x = 2`), the stored `S`
is `-3`. -/
theorem powMod_negative_result :
    powMod (-2) 1 5 = some (-2)
    ∧ ((-2 : Int) < 0)
    ∧ computeS tableHash demoPreS = Except.ok (-3)
    ∧ ((-3 : Int) < 0) := by
  refine ⟨by decide, by decide, by decide, by decide⟩

/-! ### C4 — toBigInt on the empty byte sequence -/

/-- C4 counterexample: on the empty byte sequence the hex string is empty
and `BigInt('0x')` throws a `SyntaxError`, so `toBigInt` fails rather than
returning zero. -/
theorem toBigInt_empty_throws :
    toBigInt [] = none ∧ ¬ toBigInt [] = some 0 := by
  decide

/-- C4 amended: `toBigInt` interprets every NON-empty byte sequence as a
big-endian unsigned integer (`Nat.ofDigits 256` of the little-endian
digits), but the empty byte sequence throws instead of mapping to zero. -/
theorem toBigInt_bigendian_nonempty :
    (∀ x : List Nat, x ≠ [] → toBigInt x = some (Nat.ofDigits 256 x.reverse))
    ∧ toBigInt [] = none := by
  constructor
  · intro x hx
    rw [toBigInt_of_ne_nil hx, beVal_eq_ofDigits]
  · rfl

/-- C4 witness: the amended theorem applied to the bytes `[1, 2]`. -/
theorem toBigInt_bigendian_nonempty_witness :
    toBigInt [1, 2] = some (Nat.ofDigits 256 (List.reverse [1, 2])) :=
  toBigInt_bigendian_nonempty.1 [1, 2] (by decide)

/-! ### C3 — codec round-trip laws -/

/-- C3 counterexample: `291 = 0x123` has an odd-length hex string, which the
front-aligned slicing of `toUint8Array` mis-chunks into `[0x12, 0x03]`; both
round-trip laws fail — `bytesToInteger(integerToBytes(291)) = 4611 ≠ 291`,
and the non-empty zero-free sequence `[0x01, 0x23]` (value 291) does not
come back from `integerToBytes`. -/
theorem codec_roundtrip_fails_odd_hex :
    toUint8Array 291 = [18, 3]
    ∧ toBigInt (toUint8Array 291) = some 4611
    ∧ ¬ toBigInt (toUint8Array 291) = some 291
    ∧ toBigInt [1, 35] = some 291
    ∧ ¬ toUint8Array 291 = [1, 35] := by
  decide

/-- C3 amended: the round-trip laws hold exactly on the even-hex-aligned
fragment the slicing preserves. Bytes-first: for a non-empty byte sequence
with no leading zero byte whose first byte is at least `0x10` (two hex
digits) or which is a single byte, `toUint8Array` inverts `toBigInt`.
Integer-first: `toBigInt (toUint8Array n) = n` whenever `n < 16` or the hex
representation of `n` has even length. -/
theorem codec_roundtrip_even_hex :
    (∀ (b0 : Nat) (rest : List Nat),
      b0 ≠ 0 → (∀ b ∈ b0 :: rest, b < 256) → (rest = [] ∨ 16 ≤ b0) →
      toBigInt (b0 :: rest) = some (beVal (b0 :: rest))
      ∧ toUint8Array (beVal (b0 :: rest)) = b0 :: rest)
    ∧ (∀ n : Nat, n < 16 ∨ (hexDigitsBE n).length % 2 = 0 →
      toBigInt (toUint8Array n) = some n) := by
  constructor
  · intro b0 rest hb0 hlt hcase
    refine ⟨toBigInt_of_ne_nil (by simp), ?_⟩
    by_cases h16 : 16 ≤ b0
    · -- main case: the hex string has even length 2·(number of bytes)
      have hofd : Nat.ofDigits 16 (expandBytes (b0 :: rest)).reverse
          = beVal (b0 :: rest) := by
        have h1 := foldl_mul_base_add 16 (expandBytes (b0 :: rest)) 0
        have h2 := foldl16_expandBytes (b0 :: rest) 0
        simp only [Nat.zero_mul, Nat.zero_add] at h1
        rw [← h1, h2]
        rfl
      have hmem : ∀ d ∈ (expandBytes (b0 :: rest)).reverse, d < 16 := by
        intro d hd
        exact mem_expandBytes_lt (b0 :: rest) hlt d (List.mem_reverse.mp hd)
      have hexp : expandBytes (b0 :: rest)
          = b0 / 16 :: b0 % 16 :: expandBytes rest := rfl
      have hne : expandBytes (b0 :: rest) ≠ [] := by
        rw [hexp]
        exact List.cons_ne_nil _ _
      have hrevne : (expandBytes (b0 :: rest)).reverse ≠ [] := by
        simpa using hne
      have hlast : ∀ h : (expandBytes (b0 :: rest)).reverse ≠ [],
          ((expandBytes (b0 :: rest)).reverse).getLast h ≠ 0 := by
        intro h
        have e1 := List.getLast?_eq_getLast _ h
        rw [List.getLast?_reverse] at e1
        have e2 : (expandBytes (b0 :: rest)).head? = some (b0 / 16) := by
          rw [hexp]
          rfl
        rw [e2] at e1
        have e3 := Option.some.inj e1
        rw [← e3]
        omega
      have hdig : Nat.digits 16 (beVal (b0 :: rest))
          = (expandBytes (b0 :: rest)).reverse := by
        rw [← hofd]
        exact Nat.digits_ofDigits 16 (by norm_num) _ hmem hlast
      have hbv : beVal (b0 :: rest) ≠ 0 := by
        intro h0
        rw [h0, Nat.digits_zero] at hdig
        exact hrevne hdig.symm
      calc toUint8Array (beVal (b0 :: rest))
          = packPairs (hexDigitsBE (beVal (b0 :: rest))) := rfl
        _ = packPairs ((Nat.digits 16 (beVal (b0 :: rest))).reverse) := by
            rw [hexDigitsBE_of_ne_zero hbv]
        _ = packPairs (expandBytes (b0 :: rest)) := by
            rw [hdig, List.reverse_reverse]
        _ = b0 :: rest := packPairs_expandBytes _
    · -- single byte below 0x10: one lone hex digit, still aligned
      have hrest : rest = [] := by
        rcases hcase with h | h
        · exact h
        · exact absurd h h16
      subst hrest
      have hb : beVal [b0] = b0 := by simp [beVal]
      rw [hb]
      show packPairs (hexDigitsBE b0) = [b0]
      rw [hexDigitsBE_of_ne_zero hb0, Nat.digits_of_lt 16 b0 hb0 (by omega)]
      rfl
  · intro n hn
    by_cases h0 : n = 0
    · subst h0
      decide
    rcases hn with h16 | heven
    · have hu : toUint8Array n = [n] := by
        show packPairs (hexDigitsBE n) = [n]
        rw [hexDigitsBE_of_ne_zero h0, Nat.digits_of_lt 16 n h0 h16]
        rfl
      rw [hu]
      simp [toBigInt]
    · rw [hexDigitsBE_of_ne_zero h0] at heven
      have hdsne : (Nat.digits 16 n).reverse ≠ [] := by
        simpa using Nat.digits_ne_nil_iff_ne_zero.mpr h0
      have hpne : packPairs ((Nat.digits 16 n).reverse) ≠ [] :=
        packPairs_ne_nil _ hdsne
      have hlen : ((Nat.digits 16 n).reverse).length % 2 = 0 := heven
      have h1 : toUint8Array n = packPairs ((Nat.digits 16 n).reverse) := by
        show packPairs (hexDigitsBE n) = _
        rw [hexDigitsBE_of_ne_zero h0]
      rw [h1, toBigInt_of_ne_nil hpne]
      have h2 := packPairs_foldl_even ((Nat.digits 16 n).reverse) hlen 0
      have h3 := foldl_mul_base_add 16 ((Nat.digits 16 n).reverse) 0
      simp only [Nat.zero_mul, Nat.zero_add, List.reverse_reverse] at h3
      have : beVal (packPairs ((Nat.digits 16 n).reverse)) = n := by
        show (packPairs ((Nat.digits 16 n).reverse)).foldl
            (fun a c => a * 256 + c) 0 = n
        rw [h2, h3, Nat.ofDigits_digits]
      rw [this]

/-- C3 witness: the amended theorem applied to the bytes `[0xab, 0xcd]` and
to `n = 0xabcd = 43981`. -/
theorem codec_roundtrip_even_hex_witness :
    (toBigInt [171, 205] = some (beVal [171, 205])
      ∧ toUint8Array (beVal [171, 205]) = [171, 205])
    ∧ toBigInt (toUint8Array 43981) = some 43981 :=
  ⟨codec_roundtrip_even_hex.1 171 [205] (by decide) (by decide) (Or.inr (by decide)),
   codec_roundtrip_even_hex.2 43981 (Or.inr (by decide))⟩

/-! ### C6 — the Exchanged-step computation -/

/-- C6: on any valid post-`init` exchange — `A` and `a` set and non-zero,
`B` and `s` decoding to non-zero values, the scrambling parameter
`u = H(A, B)` non-zero, and the hash digests decodable — `exchange` stores
`u`, computes `k = H(N, g)`, recomputes `x = H(s, H(I, ':', p))`, stores
`S = powMod(B - k·powMod(g, x, N), a + u·x, N)` (subtraction and exponent
over unbounded integers), and stores `K = H(S)`. -/
theorem exchange_computes_S_and_K (H : List Nat → List Nat) (st : CAState)
    (Bb sb : List Nat) (A a B sv u k x : Nat) (gx S : Int)
    (hA : st.A = some A) (hA0 : A ≠ 0)
    (ha : st.a = some a) (ha0 : a ≠ 0)
    (hB : toBigInt Bb = some B) (hB0 : B ≠ 0)
    (hs : toBigInt sb = some sv) (hs0 : sv ≠ 0)
    (hu : toBigInt (hashPipe H [toUint8Array A, toUint8Array B]) = some u)
    (hu0 : u ≠ 0)
    (hk : toBigInt (hashPipe H [toUint8Array st.N, toUint8Array st.g]) = some k)
    (hx : toBigInt (hashPipe H [toUint8Array sv,
            hashPipe H [st.I, colonBytes, st.p]]) = some x)
    (hgx : powMod (st.g : Int) x (st.N : Int) = some gx)
    (hS : powMod ((B : Int) - (k : Int) * gx) (a + u * x) (st.N : Int) = some S) :
    exchange H st Bb sb =
      ({ st with B := some B, s := some sv, u := some u, S := some S,
                 K := some (hashPipe H [toUint8ArrayI S]) }, none) := by
  simp only [exchange, computeU, computeK, computeX, computeS, falsyNat,
    hA, ha, hB, hs, hu, hk, hx, hgx, hS]
  simp [hA0, ha0, hB0, hs0, hu0, hgx, hS]

/-- C6 witness: the theorem applied to the tiny group `N = 7`, `g = 3` with
the constant digest: `A = a = 2`, `B = 5`, `s = 5`, `u = k = x = 1`,
`g^x mod N = 3`, `S = powMod(5 - 3, 3, 7) = 1`, `K = H(S)`. -/
theorem exchange_computes_S_and_K_witness :
    exchange constHash demoInit [5] [5] =
      ({ demoInit with B := some 5, s := some 5, u := some 1, S := some 1,
                       K := some (hashPipe constHash [toUint8ArrayI 1]) }, none) :=
  exchange_computes_S_and_K constHash demoInit [5] [5] 2 2 5 5 1 1 1 3 1
    rfl (by decide) rfl (by decide) (by decide) (by decide) (by decide)
    (by decide) (by decide) (by decide) (by decide) (by decide) (by decide)
    (by decide)

/-! ### C7 — ServerSetup.verify -/

/-- Every hex digit below 16 renders as a lower-case hex character. -/
theorem hexChar_lower : ∀ d : Nat, d < 16 → isLowerHexDigit (hexChar d) = true := by
  decide

/-- All characters `toHex` produces from genuine bytes are lower-case hex. -/
theorem toHex_chars_lower :
    ∀ (arr : List Nat), (∀ b ∈ arr, b < 256) →
      ∀ c ∈ (toHex arr).data, isLowerHexDigit c = true
  | [], _, c, hc => by simp [toHex] at hc
  | b :: tl, h, c, hc => by
    have hb : b < 256 := h b (List.mem_cons_self b tl)
    have hdata : (toHex (b :: tl)).data = byteToHex b ++ (toHex tl).data := rfl
    rw [hdata] at hc
    rcases List.mem_append.mp hc with h1 | h2
    · simp only [byteToHex, List.mem_cons, List.not_mem_nil, or_false] at h1
      rcases h1 with h1 | h1 <;> (subst h1; exact hexChar_lower _ (by omega))
    · exact toHex_chars_lower tl (fun y hy => h y (List.mem_cons_of_mem _ hy)) c h2

/-- All digits of `hexDigitsBE` are below 16. -/
theorem hexDigitsBE_lt (n : Nat) : ∀ d ∈ hexDigitsBE n, d < 16 := by
  intro d hd
  by_cases h0 : n = 0
  · subst h0
    simp [hexDigitsBE] at hd
    omega
  · rw [hexDigitsBE_of_ne_zero h0] at hd
    exact Nat.digits_lt_base (by norm_num) (List.mem_reverse.mp hd)

/-- Pair packing of hex digits always yields bytes. -/
theorem packPairs_mem_lt :
    ∀ (l : List Nat), (∀ d ∈ l, d < 16) → ∀ b ∈ packPairs l, b < 256
  | [], _, b, hb => by simp [packPairs] at hb
  | [d], h, b, hb => by
    simp only [packPairs, List.mem_cons, List.not_mem_nil, or_false] at hb
    have := h d (List.mem_cons_self d [])
    omega
  | d1 :: d2 :: rest, h, b, hb => by
    rw [packPairs] at hb
    rcases List.mem_cons.mp hb with h1 | h2
    · have hd1 := h d1 (by simp)
      have hd2 := h d2 (by simp)
      omega
    · exact packPairs_mem_lt rest (fun y hy => h y (by simp [hy])) b h2

/-- The bytes `toUint8Array` produces really are bytes. -/
theorem toUint8Array_lt (n : Nat) : ∀ b ∈ toUint8Array n, b < 256 :=
  packPairs_mem_lt (hexDigitsBE n) (hexDigitsBE_lt n)

/-- C7: `verify` fails with the plain protocol error exactly when `I` is
empty; with `I` non-empty it fails with a security violation whenever `s` is
empty or decodes to zero, or `v` is zero; and otherwise it succeeds with the
triple re-encoded as username, hex salt and hex verifier, both hex strings
drawn entirely from the lower-case hex alphabet. -/
theorem serverSetup_verify_spec (st : SSState) (hbytes : ∀ b ∈ st.s, b < 256) :
    ((∃ m, verify st = Except.error (SRPErr.srpError m)) ↔ st.I.length = 0)
    ∧ (st.I.length ≠ 0 →
        (st.s = [] ∨ toBigInt st.s = some 0 ∨ st.v = 0) →
        ∃ m, verify st = Except.error (SRPErr.securityViolation m))
    ∧ (st.I.length ≠ 0 → st.s ≠ [] → toBigInt st.s ≠ some 0 → st.v ≠ 0 →
        verify st = Except.ok ⟨st.I, toHex st.s, toHexOfNat st.v⟩
        ∧ (∀ c ∈ (toHex st.s).data, isLowerHexDigit c = true)
        ∧ (∀ c ∈ (toHexOfNat st.v).data, isLowerHexDigit c = true)) := by
  refine ⟨⟨?_, ?_⟩, ?_, ?_⟩
  · rintro ⟨m, hm⟩
    by_contra hI
    rw [verify, if_neg hI] at hm
    split_ifs at hm <;> simp_all
  · intro hI
    exact ⟨"I must not be empty", by rw [verify, if_pos hI]⟩
  · intro hI hcond
    by_cases hcondS : st.s.length = 0 ∨ toBigInt st.s = some 0
    · exact ⟨"s must not be empty or equal zero",
        by rw [verify, if_neg hI, if_pos hcondS]⟩
    · have hv : st.v = 0 := by
        rcases hcond with h | h | h
        · exact absurd (Or.inl (by simp [h])) hcondS
        · exact absurd (Or.inr h) hcondS
        · exact h
      exact ⟨"v must not be zero",
        by rw [verify, if_neg hI, if_neg hcondS, if_pos hv]⟩
  · intro hI hs1 hs2 hv
    have hslen : ¬ (st.s.length = 0 ∨ toBigInt st.s = some 0) := by
      push_neg
      exact ⟨by simpa [List.length_eq_zero] using hs1, hs2⟩
    refine ⟨by rw [verify, if_neg hI, if_neg hslen, if_neg hv]; rfl, ?_, ?_⟩
    · exact toHex_chars_lower st.s hbytes
    · exact toHex_chars_lower (toUint8Array st.v) (toUint8Array_lt st.v)

/-- C7 witness: the theorem applied to the triple `("a", [0xab], 2)`. -/
theorem serverSetup_verify_spec_witness :
    verify ⟨"a", [171], 2⟩ = Except.ok ⟨"a", toHex [171], toHexOfNat 2⟩ :=
  (((serverSetup_verify_spec ⟨"a", [171], 2⟩ (by decide)).2.2)
    (by decide) (by decide) (by decide) (by decide)).1

end SRP
